import Mathlib

/-!
Verification development for the `ask` CLI (src/main.rs).

Rust strings are embedded as `List Char`; where the source performs
byte-level operations (`str::len`, byte slicing `&s[..n]`) we account
for UTF-8 byte sizes explicitly via `charSize`/`rustLen`, so that the
byte/character distinction of the source is preserved.  Unicode-aware
`trim`/`to_lowercase` are modelled on the ASCII range, which is the
range exercised by every token and table in the source.
-/

namespace AskCli

/-- UTF-8 encoded byte size of one character (as in Rust `char::len_utf8`). -/
def charSize (c : Char) : Nat :=
  if c.toNat < 128 then 1
  else if c.toNat < 2048 then 2
  else if c.toNat < 65536 then 3
  else 4

/-- Byte length of a string, as Rust `str::len`. -/
def rustLen (s : List Char) : Nat := (s.map charSize).sum

/-- ASCII whitespace test, modelling `char::is_whitespace` on the ASCII range. -/
def isWsChar (c : Char) : Bool :=
  c = ' ' || c = '\t' || c = '\n' || c = '\r'

/-- Rust `str::trim`: drop whitespace from both ends. -/
def trimStr (s : List Char) : List Char :=
  ((s.dropWhile isWsChar).reverse.dropWhile isWsChar).reverse

/-- ASCII lowercasing of one character, modelling `str::to_lowercase`
on the ASCII range. -/
def lowerChar (c : Char) : Char :=
  if 65 ≤ c.toNat ∧ c.toNat ≤ 90 then Char.ofNat (c.toNat + 32) else c

/-- `str::to_lowercase`, ASCII model. -/
def lower (s : List Char) : List Char := s.map lowerChar

/-- Rust `str::split(sep)` on a character separator. -/
def splitOnChar (sep : Char) : List Char → List (List Char)
  | [] => [[]]
  | c :: cs =>
    match splitOnChar sep cs with
    | [] => [[]]
    | y :: ys => if c = sep then [] :: y :: ys else (c :: y) :: ys

/-- The escape control character `\u{1b}` tested by `confirm`. -/
def escChar : Char := Char.ofNat 27

/-- Rust byte slicing `&s[..n]`: `some` of the characters making up the
first `n` bytes when `n` is a character boundary, `none` (a panic in the
source) otherwise. -/
def byteTake : List Char → Nat → Option (List Char)
  | _, 0 => some []
  | [], _ + 1 => none
  | c :: cs, n + 1 =>
    if charSize c ≤ n + 1 then
      match byteTake cs (n + 1 - charSize c) with
      | some r => some (c :: r)
      | none => none
    else none

/-! ## Direct-execution classifier (`is_script_execution`, `is_safe_direct_command`) -/

/-- The script-file extensions recognised by `is_script_execution`. -/
def scriptExts : List (List Char) :=
  [("sh".data), ("bash".data), ("zsh".data),
   ("py".data), ("python".data),
   ("js".data), ("mjs".data), ("ts".data),
   ("rb".data), ("ruby".data),
   ("pl".data), ("perl".data),
   ("php".data),
   ("r".data), ("R".data),
   ("go".data), ("rs".data),
   ("java".data), ("class".data),
   ("swift".data), ("kt".data)]

/-- `is_script_execution` from the source: explicit interpreter token or a
recognised extension on the last dot-delimited segment. -/
def isScriptExecution (cmd0 : List Char) : Bool :=
  let cmd := trimStr cmd0
  List.isPrefixOf ("python ".data) cmd || List.isPrefixOf ("python3 ".data) cmd ||
  List.isPrefixOf ("node ".data) cmd || List.isPrefixOf ("ruby ".data) cmd ||
  List.isPrefixOf ("perl ".data) cmd || List.isPrefixOf ("php ".data) cmd ||
  List.isPrefixOf ("bash ".data) cmd || List.isPrefixOf ("sh ".data) cmd ||
  List.isPrefixOf ("zsh ".data) cmd || List.isPrefixOf ("./".data) cmd ||
  decide ((splitOnChar '.' cmd).getLastD [] ∈ scriptExts)

/-- The `safe_commands` array of `is_safe_direct_command`, in source order. -/
def safeCommands : List (List Char) :=
  [("ls".data), ("ll".data), ("la".data), ("dir".data), ("pwd".data), ("tree".data),
   ("cat".data), ("head".data), ("tail".data), ("less".data), ("more".data),
   ("wc".data), ("file".data), ("stat".data),
   ("date".data), ("uptime".data), ("whoami".data), ("hostname".data),
   ("uname".data), ("id".data),
   ("df".data), ("du".data), ("free".data), ("top".data), ("ps".data),
   ("who".data), ("w".data),
   ("ifconfig".data), ("ping".data), ("netstat".data), ("curl".data),
   ("wget".data), ("dig".data), ("nslookup".data),
   ("env".data), ("printenv".data), ("echo".data), ("which".data),
   ("type".data), ("alias".data),
   ("git status".data), ("git log".data), ("git diff".data),
   ("git branch".data), ("git remote".data),
   ("brew list".data), ("npm list".data), ("pip list".data), ("cargo search".data),
   ("history".data), ("help".data), ("man".data)]

/-- The chain of early-return checks of `is_safe_direct_command` applied to
the trimmed, lowercased input, followed by the exact-match allowlist test. -/
def safeChain (cl : List Char) : Bool :=
  List.isPrefixOf ("ls ".data) cl || decide (cl = ("ls".data)) ||
  List.isPrefixOf ("cd ".data) cl || decide (cl = ("cd".data)) ||
  List.isPrefixOf ("cat ".data) cl || decide (cl = ("cat".data)) ||
  List.isPrefixOf ("echo ".data) cl || decide (cl = ("echo".data)) ||
  List.isPrefixOf ("pwd".data) cl ||
  List.isPrefixOf ("head ".data) cl || decide (cl = ("head".data)) ||
  List.isPrefixOf ("tail ".data) cl || decide (cl = ("tail".data)) ||
  List.isPrefixOf ("grep ".data) cl || decide (cl = ("grep".data)) ||
  List.isPrefixOf ("find ".data) cl || decide (cl = ("find".data)) ||
  List.isPrefixOf ("wc ".data) cl || decide (cl = ("wc".data)) ||
  List.isPrefixOf ("diff ".data) cl || decide (cl = ("diff".data)) ||
  decide (cl ∈ safeCommands)

/-- `is_safe_direct_command` from the source. -/
def isSafeDirectCommand (cmd : List Char) : Bool :=
  isScriptExecution cmd || safeChain (lower (trimStr cmd))

/-- The command rewrite performed in `run_interactive_mode` before direct
execution: bare `ls` becomes `ls -l`; a bare script name with a recognised
extension gets its interpreter prefixed. -/
def commandToRun (input : List Char) : List Char :=
  if trimStr input = ("ls".data) then ("ls -l".data)
  else if isScriptExecution input && !(List.elem ' ' input) then
    let script := trimStr input
    if List.isSuffixOf (".py".data) script then ("python3 ".data) ++ script
    else if List.isSuffixOf (".js".data) script || List.isSuffixOf (".mjs".data) script then
      ("node ".data) ++ script
    else if List.isSuffixOf (".rb".data) script then ("ruby ".data) ++ script
    else if List.isSuffixOf (".sh".data) script || List.isSuffixOf (".bash".data) script then
      ("bash ".data) ++ script
    else if List.isSuffixOf (".pl".data) script then ("perl ".data) ++ script
    else if List.isSuffixOf (".php".data) script then ("php ".data) ++ script
    else input
  else input

/-- The spec's `classify`: the direct-execution decision paired with the
rewritten command. -/
def classify (input : List Char) : Bool × List Char :=
  (isSafeDirectCommand input, commandToRun input)

/-! ## History manager (`ConversationContext`, `compact_history`) -/

/-- One turn of the session, as `struct ConversationContext`. -/
structure ConversationContext where
  prompt : List Char
  commands : List (List Char)
  outputs : List (List Char)
deriving DecidableEq

/-- `estimate_tokens`: byte length divided by `TOKEN_ESTIMATE_RATIO` (4). -/
def estimateTokens (s : List Char) : Nat := rustLen s / 4

/-- `MAX_CONTEXT_TOKENS`. -/
def maxCtxTokens : Nat := 3000

/-- The truncation applied to one output inside `compact_history`:
`format!("{}... (truncated)", &output[..200])` when the byte length
exceeds 200.  The byte slice panics (`none`) when byte offset 200 is not
a character boundary. -/
def truncOut (o : List Char) : Option (List Char) :=
  if 200 < rustLen o then
    match byteTake o 200 with
    | some t => some (t ++ ("... (truncated)".data))
    | none => none
  else some o

/-- The `Output:` lines of one turn's rendered block (empty outputs are
skipped before truncation, as in the source). -/
def renderOutputs : List (List Char) → Option (List Char)
  | [] => some []
  | o :: os =>
    if o = [] then renderOutputs os
    else
      match truncOut o with
      | none => none
      | some t =>
        match renderOutputs os with
        | none => none
        | some r => some (("Output: ".data) ++ t ++ ('\n' :: r))

/-- One turn's rendered block `ctx_str` inside `compact_history`. -/
def renderCtx (c : ConversationContext) : Option (List Char) :=
  match renderOutputs c.outputs with
  | none => none
  | some outs =>
    some (("User: ".data) ++ c.prompt ++
      ('\n' :: (((c.commands.map (fun k => ("Command: ".data) ++ k ++ ['\n'])).flatten)
        ++ outs ++ ['\n'])))

/-- The rendered block of a turn, defaulting to `[]` where the source
would panic; used only to state size sums. -/
def rendOf (c : ConversationContext) : List Char := (renderCtx c).getD []

/-- Sum of the per-block token estimates of a history. -/
def tokSum (h : List ConversationContext) : Nat :=
  (h.map (fun c => estimateTokens (rendOf c))).sum

/-- The static header text of `compact_history`. -/
def headerStr : List Char := ("Previous commands and outputs in this session:\n\n".data)

/-- The most-recent-first inclusion walk of `compact_history`: the input
list is the reversed history, `total` the running token estimate.  Returns
the included blocks in walk order, or `none` on a truncation panic. -/
def compactLoop : List ConversationContext → Nat → Option (List (List Char))
  | [], _ => some []
  | c :: rest, total =>
    match renderCtx c with
    | none => none
    | some s =>
      if maxCtxTokens < total + estimateTokens s then some []
      else
        match compactLoop rest (total + estimateTokens s) with
        | none => none
        | some l => some (s :: l)

/-- The `(Note: Showing recent {} of {} total interactions due to length)`
line prepended when turns were dropped. -/
def noteStr (k n : Nat) : List Char :=
  ("(Note: Showing recent ".data) ++ (Nat.repr k).data ++ (" of ".data) ++
  (Nat.repr n).data ++ (" total interactions due to length)\n\n".data)

/-- `compact_history` from the source. -/
def compactHistory (h : List ConversationContext) : Option (List Char) :=
  match compactLoop h.reverse (estimateTokens headerStr) with
  | none => none
  | some incl =>
    some (headerStr ++
      (if incl.length < h.length then noteStr incl.length h.length else []) ++
      incl.reverse.flatten)

/-! ## Confirmation state machine (`confirm`, the command loop of
`process_prompt_with_context`) -/

/-- `enum ConfirmResponse`. -/
inductive ConfirmResponse where
  | yes
  | no
  | skip
  | instruct (cmd : List Char)
deriving DecidableEq

/-- `confirm` from the source, reading from a finite stream of input
lines.  Reading past the end of the stream models `read_line` at EOF,
which leaves the buffer empty and therefore resolves to `Yes`.  An
unrecognised token re-prompts, consuming the next line. -/
def confirmRead : List (List Char) → ConfirmResponse × List (List Char)
  | [] => (ConfirmResponse.yes, [])
  | line :: rest =>
    if List.elem escChar line then (ConfirmResponse.no, rest)
    else
      if lower (trimStr line) = [] ∨ lower (trimStr line) = ("y".data) ∨
         lower (trimStr line) = ("yes".data) then (ConfirmResponse.yes, rest)
      else if lower (trimStr line) = ("n".data) ∨ lower (trimStr line) = ("no".data) then
        (ConfirmResponse.no, rest)
      else if lower (trimStr line) = ("s".data) ∨ lower (trimStr line) = ("skip".data) then
        (ConfirmResponse.skip, rest)
      else if lower (trimStr line) = ("i".data) ∨ lower (trimStr line) = ("instruct".data) then
        match rest with
        | [] => (ConfirmResponse.instruct [], [])
        | c :: r2 => (ConfirmResponse.instruct (trimStr c), r2)
      else confirmRead rest

/-- The error cases of `process_prompt_with_context` and
`run_command_with_output`. -/
inductive PErr where
  | network
  | apiStatus
  | noChoices
  | emptyResponse
  | execFailed
deriving DecidableEq

/-- The side-command execution of the `Instruct` branch: run the custom
command when non-empty (its output is discarded, never recorded), fail on
a non-zero exit.  Returns the shell-trace contribution. -/
def sideRun (ex : List Char → List Char × Bool) (c : List Char) :
    Except PErr (List (List Char)) :=
  if c = [] then Except.ok []
  else
    match ex c with
    | (_, true) => Except.ok [c]
    | (_, false) => Except.error PErr.execFailed

/-- The per-command confirmation/execution loop of
`process_prompt_with_context` (source lines 561-615).  The shell is an
oracle `ex` giving the combined output and the success of the exit
status; `run_command_with_output` errors on failure, which the `?` in the
source propagates out of the whole loop.  The third result component is
the trace of commands actually handed to the shell, in order. -/
def cmdLoop (ex : List Char → List Char × Bool) :
    List (List Char) → List (List Char) →
    Except PErr ((List (List Char) × List (List Char)) × List (List Char))
  | [], _ => Except.ok (([], []), [])
  | cmd :: rest, stream =>
    if cmd.head? = some '#' then cmdLoop ex rest stream
    else
      match confirmRead stream with
      | (ConfirmResponse.yes, s2) =>
        match ex cmd with
        | (out, true) =>
          match cmdLoop ex rest s2 with
          | Except.ok ((cs, os), tr) => Except.ok ((cmd :: cs, out :: os), cmd :: tr)
          | Except.error e => Except.error e
        | (_, false) => Except.error PErr.execFailed
      | (ConfirmResponse.no, _) => Except.ok (([], []), [])
      | (ConfirmResponse.skip, s2) => cmdLoop ex rest s2
      | (ConfirmResponse.instruct c, s2) =>
        match sideRun ex c with
        | Except.error e => Except.error e
        | Except.ok pfxT =>
          match confirmRead s2 with
          | (ConfirmResponse.yes, s3) =>
            match ex cmd with
            | (out, true) =>
              match cmdLoop ex rest s3 with
              | Except.ok ((cs, os), tr) =>
                Except.ok ((cmd :: cs, out :: os), pfxT ++ cmd :: tr)
              | Except.error e => Except.error e
            | (_, false) => Except.error PErr.execFailed
          | (ConfirmResponse.no, _) => Except.ok (([], []), pfxT)
          | (ConfirmResponse.skip, s3) =>
            match cmdLoop ex rest s3 with
            | Except.ok (r, tr) => Except.ok (r, pfxT ++ tr)
            | Except.error e => Except.error e
          | (ConfirmResponse.instruct _, s3) =>
            match cmdLoop ex rest s3 with
            | Except.ok (r, tr) => Except.ok (r, pfxT ++ tr)
            | Except.error e => Except.error e

/-- `parse_commands` from the source: split into lines, trim, drop empty
lines and code-fence delimiter lines. -/
def parseCommands (content : List Char) : List (List Char) :=
  (((splitOnChar '\n' content).map trimStr).filter (fun l => !l.isEmpty)).filter
    (fun l => !(List.isPrefixOf ("```".data) l) && !(List.isSuffixOf ("```".data) l))

/-- Outcome of the HTTP call to the model collaborator. -/
inductive ApiOutcome where
  | netErr
  | apiErr (code : Nat)
  | success (choices : List (List Char))

/-- `process_prompt_with_context` from the source: the API outcome is an
oracle, the confirmation answers come from `stream`, the shell from `ex`.
Returns the executed commands with their outputs, plus the shell trace. -/
def processPrompt (ex : List Char → List Char × Bool) (api : ApiOutcome)
    (stream : List (List Char)) :
    Except PErr ((List (List Char) × List (List Char)) × List (List Char)) :=
  match api with
  | ApiOutcome.netErr => Except.error PErr.network
  | ApiOutcome.apiErr _ => Except.error PErr.apiStatus
  | ApiOutcome.success [] => Except.error PErr.noChoices
  | ApiOutcome.success (content :: _) =>
    if parseCommands (trimStr content) = [] then Except.error PErr.emptyResponse
    else if (parseCommands (trimStr content)).all (fun c => c.head? == some '#') then
      Except.ok (([], []), [])
    else cmdLoop ex (parseCommands (trimStr content)) stream

/-! ## Session loop (one iteration of `run_interactive_mode`) -/

/-- The environment of one loop iteration: the shell, the filesystem
(`set_current_dir` results and directory displays), `$HOME`, the model
API outcome and the confirmation input stream. -/
structure Env where
  exec : List Char → List Char × Bool
  cdRes : List Char → Bool × List Char
  cwd : List Char
  home : List Char
  api : ApiOutcome
  stream : List (List Char)

/-- `input.trim().strip_prefix("cd ").unwrap_or("")` from the cd branch. -/
def dropCdArg (s : List Char) : List Char :=
  if List.isPrefixOf ("cd ".data) s then s.drop 3 else []

/-- One iteration of the body of `run_interactive_mode` (source lines
210-400), returning the updated session history.  Every place the source
pushes a `ConversationContext` is modelled; error paths push nothing. -/
def loopStep (e : Env) (raw : List Char) (h : List ConversationContext) :
    List ConversationContext :=
  if trimStr raw = [] then h
  else if trimStr raw = ("q".data) ∨ trimStr raw = ("exit".data) ∨
          trimStr raw = ("quit".data) then h
  else if trimStr raw = (".".data) then
    h ++ [⟨("pwd".data), [("pwd".data)], [e.cwd]⟩]
  else if trimStr raw = ("..".data) then
    match e.cdRes ("..".data) with
    | (true, cwd) =>
      h ++ [⟨("cd ..".data), [("cd ..".data)], [("Changed to: ".data) ++ cwd]⟩]
    | (false, _) => h
  else if trimStr raw = ("clear".data) then []
  else if trimStr raw = ("finder".data) then h
  else if isSafeDirectCommand (trimStr raw) then
    if List.isPrefixOf ("cd".data) (trimStr (trimStr raw)) then
      match e.cdRes (if trimStr (trimStr raw) = ("cd".data) then e.home
                     else trimStr (dropCdArg (trimStr (trimStr raw)))) with
      | (true, cwd) =>
        h ++ [⟨trimStr raw, [trimStr raw], [("Changed to: ".data) ++ cwd]⟩]
      | (false, _) => h
    else
      match e.exec (commandToRun (trimStr raw)) with
      | (out, true) => h ++ [⟨trimStr raw, [commandToRun (trimStr raw)], [out]⟩]
      | (_, false) => h
  else
    match processPrompt e.exec e.api e.stream with
    | Except.ok ((cs, os), _) => h ++ [⟨trimStr raw, cs, os⟩]
    | Except.error _ => h

/-- The commands whose with-arguments form is special-cased by
`is_safe_direct_command`. -/
def argFormCmds : List (List Char) :=
  [("ls".data), ("cd".data), ("cat".data), ("echo".data), ("pwd".data),
   ("head".data), ("tail".data), ("grep".data), ("find".data), ("wc".data),
   ("diff".data)]

/-- The character `é` (U+00E9), two bytes in UTF-8. -/
def eAcute : Char := Char.ofNat 233

/-- An output of 199 ASCII bytes followed by `é`: 201 bytes long, and
byte offset 200 is not a character boundary. -/
def panicOutput : List Char := List.replicate 199 'a' ++ [eAcute]

/-- A concrete environment for witnesses: every shell command succeeds
with output `o`, directory changes succeed, and the model call fails
with a network error. -/
def envW : Env :=
  ⟨fun _ => (("o".data), true), fun _ => (true, ("d".data)), ("d".data),
   ("h".data), ApiOutcome.netErr, []⟩

/-- A one-turn history for witnesses. -/
def histW : List ConversationContext := [⟨("p".data), [("c".data)], [("o".data)]⟩]

/-- A turn whose rendered block is about 52 estimated tokens. -/
def smallTurn : ConversationContext := ⟨List.replicate 200 'a', [], []⟩

/-- 58 such turns: the total rendered size exceeds the 3000-token
ceiling, and the compaction walk keeps only the most recent 57. -/
def bigHist : List ConversationContext := List.replicate 58 smallTurn

/-- A shell oracle that fails on command `a` and succeeds elsewhere. -/
def failingShell : List Char → List Char × Bool :=
  fun c => if c = ("a".data) then (([] : List Char), false) else (("fine".data), true)

end AskCli

deriving instance DecidableEq for Except

set_option maxRecDepth 100000

namespace AskCli

/-! ## Theorems -/

/-- Claim C2: the classifier is direct and rewrites `ls` to `ls -l`,
accepts `ls -a` unchanged, rejects `rm -rf /`, is direct on
`myscript.py` rewriting it to `python3 myscript.py`, is direct on
`git status`, and rejects `git push`. -/
theorem classify_examples :
    classify ("ls".data) = (true, ("ls -l".data)) ∧
    classify ("ls -a".data) = (true, ("ls -a".data)) ∧
    (classify ("rm -rf /".data)).1 = false ∧
    classify ("myscript.py".data) = (true, ("python3 myscript.py".data)) ∧
    (classify ("git status".data)).1 = true ∧
    (classify ("git push".data)).1 = false := by
  decide

/-- Counterexample to claim C3: `uptime` is in the allowlist, yet
`uptime 1` (the command followed by a space and an argument) is not
classified as direct, because the allowlist is only consulted for exact
matches. -/
theorem allowlist_args_counterexample :
    ("uptime".data) ∈ safeCommands ∧
    isSafeDirectCommand ("uptime 1".data) = false := by
  decide

/-- Claim C3 (amended): for every allowlist command name, classification
is case-insensitive and an exact match of the trimmed, lowercased input
to the bare name is classified as direct; the name-followed-by-space-
and-arguments form is guaranteed direct for the special-cased set `ls`,
`cd`, `cat`, `echo`, `pwd`, `head`, `tail`, `grep`, `find`, `wc`,
`diff`, while for the remaining allowlist names an argument form is not
matched by the allowlist itself (e.g. `uptime 1` is not direct), though
it can still be direct through the independent script-extension
heuristic (e.g. `uptime x.py` is direct). -/
theorem allowlist_amended :
    (∀ name ∈ safeCommands, ∀ input : List Char,
      lower (trimStr input) = name → isSafeDirectCommand input = true) ∧
    (∀ name ∈ argFormCmds, ∀ input rest : List Char,
      lower (trimStr input) = name ++ (' ' :: rest) →
      isSafeDirectCommand input = true) ∧
    isSafeDirectCommand ("uptime x.py".data) = true := by
  refine ⟨?_, ?_, by decide⟩
  · intro name hmem input hcl
    have h1 : decide (name ∈ safeCommands) = true := decide_eq_true hmem
    simp only [isSafeDirectCommand, hcl, safeChain, h1, Bool.or_true]
  · intro name hmem input rest hcl
    fin_cases hmem <;>
      simp [isSafeDirectCommand, safeChain, hcl, List.isPrefixOf]

/-- Witness for `allowlist_amended`: `" UPTIME "` (exact allowlist match
after trim/lowercase) and `"GREP -r foo"` (special-cased with-arguments
form) are both classified as direct. -/
theorem allowlist_amended_witness :
    isSafeDirectCommand (" UPTIME ".data) = true ∧
    isSafeDirectCommand ("GREP -r foo".data) = true :=
  ⟨allowlist_amended.1 ("uptime".data) (by decide) (" UPTIME ".data) (by decide),
   allowlist_amended.2.1 ("grep".data) (by decide) ("GREP -r foo".data)
     ("-r foo".data) (by decide)⟩

/-- Claim C5 fails on the code: `compact_history` byte-slices with
`&output[..200]`, so on `panicOutput` (byte length 201 > 200, offset 200
inside the final two-byte character) the slice panics and `compact` is
not well-defined; and on a 150-character `é` output (300 bytes) the
compacted text keeps the first 200 bytes, which are only the first 100
characters, not the first 200 characters. -/
theorem truncation_byte_panic :
    compactHistory [⟨("x".data), [], [panicOutput]⟩] = none ∧
    truncOut (List.replicate 150 eAcute) =
      some ((List.replicate 100 eAcute) ++ ("... (truncated)".data)) := by
  decide

/-- Helper: whenever the command loop returns successfully, it has
recorded exactly one output per executed command. -/
theorem cmdLoop_len (ex : List Char → List Char × Bool) (cmds : List (List Char)) :
    ∀ (stream : List (List Char)) (cs os tr : List (List Char)),
    cmdLoop ex cmds stream = Except.ok ((cs, os), tr) → cs.length = os.length := by
  induction cmds with
  | nil =>
    intro stream cs os tr h
    simp only [cmdLoop] at h
    cases h
    rfl
  | cons cmd rest ih =>
    intro stream cs os tr h
    simp only [cmdLoop] at h
    by_cases hh : cmd.head? = some '#'
    · rw [if_pos hh] at h
      exact ih _ _ _ _ h
    rw [if_neg hh] at h
    rcases hconf : confirmRead stream with ⟨resp, s2⟩
    rw [hconf] at h
    cases resp with
    | yes =>
      dsimp only [] at h
      rcases hex : ex cmd with ⟨out, ok⟩
      rw [hex] at h
      cases ok with
      | false => dsimp only [] at h; cases h
      | true =>
        dsimp only [] at h
        rcases hrec : cmdLoop ex rest s2 with e | ⟨⟨cs', os'⟩, tr'⟩ <;> rw [hrec] at h <;>
          dsimp only [] at h
        · cases h
        · cases h
          simpa using ih _ _ _ _ hrec
    | no =>
      dsimp only [] at h
      cases h
      rfl
    | skip =>
      dsimp only [] at h
      exact ih _ _ _ _ h
    | instruct c =>
      dsimp only [] at h
      rcases hside : sideRun ex c with e | pfxT <;> rw [hside] at h <;> dsimp only [] at h
      · cases h
      rcases hconf2 : confirmRead s2 with ⟨resp2, s3⟩
      rw [hconf2] at h
      cases resp2 with
      | yes =>
        dsimp only [] at h
        rcases hex : ex cmd with ⟨out, ok⟩
        rw [hex] at h
        cases ok with
        | false => dsimp only [] at h; cases h
        | true =>
          dsimp only [] at h
          rcases hrec : cmdLoop ex rest s3 with e | ⟨⟨cs', os'⟩, tr'⟩ <;> rw [hrec] at h <;>
            dsimp only [] at h
          · cases h
          · cases h
            simpa using ih _ _ _ _ hrec
      | no =>
        dsimp only [] at h
        cases h
        rfl
      | skip =>
        dsimp only [] at h
        rcases hrec : cmdLoop ex rest s3 with e | ⟨⟨cs', os'⟩, tr'⟩ <;> rw [hrec] at h <;>
          dsimp only [] at h
        · cases h
        · cases h
          exact ih _ _ _ _ hrec
      | instruct c2 =>
        dsimp only [] at h
        rcases hrec : cmdLoop ex rest s3 with e | ⟨⟨cs', os'⟩, tr'⟩ <;> rw [hrec] at h <;>
          dsimp only [] at h
        · cases h
        · cases h
          exact ih _ _ _ _ hrec

/-- Helper: the executed commands of a successful command loop form a
sublist of the proposed commands; in particular no diverted side command
is ever recorded. -/
theorem cmdLoop_sublist (ex : List Char → List Char × Bool) (cmds : List (List Char)) :
    ∀ (stream : List (List Char)) (cs os tr : List (List Char)),
    cmdLoop ex cmds stream = Except.ok ((cs, os), tr) → List.Sublist cs cmds := by
  induction cmds with
  | nil =>
    intro stream cs os tr h
    simp only [cmdLoop] at h
    cases h
    exact List.Sublist.refl _
  | cons cmd rest ih =>
    intro stream cs os tr h
    simp only [cmdLoop] at h
    by_cases hh : cmd.head? = some '#'
    · rw [if_pos hh] at h
      exact (ih _ _ _ _ h).cons _
    rw [if_neg hh] at h
    rcases hconf : confirmRead stream with ⟨resp, s2⟩
    rw [hconf] at h
    cases resp with
    | yes =>
      dsimp only [] at h
      rcases hex : ex cmd with ⟨out, ok⟩
      rw [hex] at h
      cases ok with
      | false => dsimp only [] at h; cases h
      | true =>
        dsimp only [] at h
        rcases hrec : cmdLoop ex rest s2 with e | ⟨⟨cs', os'⟩, tr'⟩ <;> rw [hrec] at h <;>
          dsimp only [] at h
        · cases h
        · cases h
          exact (ih _ _ _ _ hrec).cons₂ _
    | no =>
      dsimp only [] at h
      cases h
      exact List.nil_sublist _
    | skip =>
      dsimp only [] at h
      exact (ih _ _ _ _ h).cons _
    | instruct c =>
      dsimp only [] at h
      rcases hside : sideRun ex c with e | pfxT <;> rw [hside] at h <;> dsimp only [] at h
      · cases h
      rcases hconf2 : confirmRead s2 with ⟨resp2, s3⟩
      rw [hconf2] at h
      cases resp2 with
      | yes =>
        dsimp only [] at h
        rcases hex : ex cmd with ⟨out, ok⟩
        rw [hex] at h
        cases ok with
        | false => dsimp only [] at h; cases h
        | true =>
          dsimp only [] at h
          rcases hrec : cmdLoop ex rest s3 with e | ⟨⟨cs', os'⟩, tr'⟩ <;> rw [hrec] at h <;>
            dsimp only [] at h
          · cases h
          · cases h
            exact (ih _ _ _ _ hrec).cons₂ _
      | no =>
        dsimp only [] at h
        cases h
        exact List.nil_sublist _
      | skip =>
        dsimp only [] at h
        rcases hrec : cmdLoop ex rest s3 with e | ⟨⟨cs', os'⟩, tr'⟩ <;> rw [hrec] at h <;>
          dsimp only [] at h
        · cases h
        · cases h
          exact (ih _ _ _ _ hrec).cons _
      | instruct c2 =>
        dsimp only [] at h
        rcases hrec : cmdLoop ex rest s3 with e | ⟨⟨cs', os'⟩, tr'⟩ <;> rw [hrec] at h <;>
          dsimp only [] at h
        · cases h
        · cases h
          exact (ih _ _ _ _ hrec).cons _

/-- Helper: a successful `process_prompt_with_context` records exactly
one output per executed command. -/
theorem processPrompt_len (ex : List Char → List Char × Bool) (api : ApiOutcome)
    (stream : List (List Char)) (cs os tr : List (List Char))
    (h : processPrompt ex api stream = Except.ok ((cs, os), tr)) :
    cs.length = os.length := by
  unfold processPrompt at h
  cases api with
  | netErr => cases h
  | apiErr c => cases h
  | success choices =>
    cases choices with
    | nil => cases h
    | cons content tailc =>
      dsimp only [] at h
      by_cases h1 : parseCommands (trimStr content) = []
      · rw [if_pos h1] at h
        cases h
      rw [if_neg h1] at h
      by_cases h2 : (parseCommands (trimStr content)).all (fun c => c.head? == some '#') = true
      · rw [if_pos h2] at h
        cases h
        rfl
      · rw [if_neg h2] at h
        exact cmdLoop_len _ _ _ _ _ _ h

/-- Claim C1: every turn appended to the session history by one loop
iteration — direct execution, cd handling, the `.`/`..` shortcuts, or any
sequence of Accept/Decline/Skip/Divert resolutions of model-proposed
commands — has exactly as many outputs as commands. -/
theorem turns_invariant (e : Env) (raw : List Char) (h : List ConversationContext)
    (hh : ∀ t ∈ h, t.commands.length = t.outputs.length) :
    ∀ t ∈ loopStep e raw h, t.commands.length = t.outputs.length := by
  intro t ht
  unfold loopStep at ht
  by_cases h0 : trimStr raw = []
  · rw [if_pos h0] at ht
    exact hh t ht
  rw [if_neg h0] at ht
  by_cases h1 : trimStr raw = ("q".data) ∨ trimStr raw = ("exit".data) ∨
      trimStr raw = ("quit".data)
  · rw [if_pos h1] at ht
    exact hh t ht
  rw [if_neg h1] at ht
  by_cases h2 : trimStr raw = (".".data)
  · rw [if_pos h2] at ht
    rcases List.mem_append.1 ht with hm | hm
    · exact hh t hm
    · simp only [List.mem_singleton] at hm
      subst hm
      rfl
  rw [if_neg h2] at ht
  by_cases h3 : trimStr raw = ("..".data)
  · rw [if_pos h3] at ht
    rcases hcd : e.cdRes ("..".data) with ⟨ok, cwd⟩
    rw [hcd] at ht
    cases ok with
    | true =>
      dsimp only [] at ht
      rcases List.mem_append.1 ht with hm | hm
      · exact hh t hm
      · simp only [List.mem_singleton] at hm
        subst hm
        rfl
    | false =>
      dsimp only [] at ht
      exact hh t ht
  rw [if_neg h3] at ht
  by_cases h4 : trimStr raw = ("clear".data)
  · rw [if_pos h4] at ht
    exact absurd ht (List.not_mem_nil t)
  rw [if_neg h4] at ht
  by_cases h5 : trimStr raw = ("finder".data)
  · rw [if_pos h5] at ht
    exact hh t ht
  rw [if_neg h5] at ht
  by_cases h6 : isSafeDirectCommand (trimStr raw) = true
  · rw [if_pos h6] at ht
    by_cases h7 : List.isPrefixOf ("cd".data) (trimStr (trimStr raw)) = true
    · rw [if_pos h7] at ht
      rcases hcd : e.cdRes (if trimStr (trimStr raw) = ("cd".data) then e.home
          else trimStr (dropCdArg (trimStr (trimStr raw)))) with ⟨ok, cwd⟩
      rw [hcd] at ht
      cases ok with
      | true =>
        dsimp only [] at ht
        rcases List.mem_append.1 ht with hm | hm
        · exact hh t hm
        · simp only [List.mem_singleton] at hm
          subst hm
          rfl
      | false =>
        dsimp only [] at ht
        exact hh t ht
    · rw [if_neg h7] at ht
      rcases hexe : e.exec (commandToRun (trimStr raw)) with ⟨out, ok⟩
      rw [hexe] at ht
      cases ok with
      | true =>
        dsimp only [] at ht
        rcases List.mem_append.1 ht with hm | hm
        · exact hh t hm
        · simp only [List.mem_singleton] at hm
          subst hm
          rfl
      | false =>
        dsimp only [] at ht
        exact hh t ht
  · rw [if_neg h6] at ht
    rcases hpp : processPrompt e.exec e.api e.stream with err | ⟨⟨cs, os⟩, tr⟩ <;>
      rw [hpp] at ht <;> dsimp only [] at ht
    · exact hh t ht
    · rcases List.mem_append.1 ht with hm | hm
      · exact hh t hm
      · simp only [List.mem_singleton] at hm
        subst hm
        exact processPrompt_len _ _ _ _ _ _ hpp

/-- Witness for `turns_invariant`: a direct `ls` on an empty history
appends only length-balanced turns. -/
theorem turns_invariant_witness :
    (loopStep envW ("ls".data) []).all
      (fun t => decide (t.commands.length = t.outputs.length)) = true := by
  apply List.all_eq_true.mpr
  intro t ht
  exact decide_eq_true (turns_invariant envW ("ls".data) [] (by simp) t ht)

/-- Helper: the per-block token sum is invariant under reversing the
history. -/
theorem tokSum_reverse (l : List ConversationContext) : tokSum l.reverse = tokSum l := by
  unfold tokSum
  rw [List.map_reverse]
  exact List.sum_reverse _

/-- Helper: the inclusion walk of `compact_history` keeps a prefix of the
reversed history; it keeps everything exactly when the running estimate
stays within the ceiling. -/
theorem compactLoop_spec (l : List ConversationContext) :
    ∀ (total : Nat), total ≤ maxCtxTokens →
    (∀ c ∈ l, (renderCtx c).isSome) →
    ∃ k, k ≤ l.length ∧
      compactLoop l total = some ((l.take k).map rendOf) ∧
      (total + tokSum l ≤ maxCtxTokens → k = l.length) ∧
      (k = l.length → total + tokSum l ≤ maxCtxTokens) := by
  induction l with
  | nil =>
    intro total htot hall
    refine ⟨0, Nat.le_refl _, by simp [compactLoop], fun _ => rfl, fun _ => ?_⟩
    simpa [tokSum] using htot
  | cons c rest ih =>
    intro total htot hall
    have hcs : (renderCtx c).isSome := hall c (List.mem_cons_self _ _)
    obtain ⟨s, hs⟩ : ∃ s, renderCtx c = some s := Option.isSome_iff_exists.mp hcs
    have hrend : rendOf c = s := by simp [rendOf, hs]
    have htok : tokSum (c :: rest) = estimateTokens s + tokSum rest := by
      simp [tokSum, hrend]
    by_cases hbig : maxCtxTokens < total + estimateTokens s
    · refine ⟨0, Nat.zero_le _, ?_, ?_, ?_⟩
      · simp [compactLoop, hs, hbig]
      · intro hfit
        rw [htok] at hfit
        omega
      · intro hk
        simp at hk
    · push_neg at hbig
      obtain ⟨k, hk_le, hkeq, hfit1, hfit2⟩ :=
        ih (total + estimateTokens s) hbig (fun x hx => hall x (List.mem_cons_of_mem _ hx))
      refine ⟨k + 1, by simpa using Nat.succ_le_succ hk_le, ?_, ?_, ?_⟩
      · simp only [compactLoop, hs]
        rw [if_neg (by omega), hkeq]
        simp [hrend]
      · intro hfit
        rw [htok] at hfit
        have : k = rest.length := hfit1 (by omega)
        simp [this]
      · intro hk1
        simp only [List.length_cons] at hk1
        have hk' : k = rest.length := by omega
        have := hfit2 hk'
        rw [htok]
        omega

/-- Claim C4: when the total rendered size exceeds the 3000-token
ceiling, `compact_history` keeps a strict suffix of the most recent
`K < N` turns, rendered oldest-included-to-newest, and prepends the
"showing K of N" note; when everything fits within the ceiling, no note
is added and all `N` turns appear, oldest first. -/
theorem compact_structure (h : List ConversationContext)
    (hall : ∀ c ∈ h, (renderCtx c).isSome) :
    ∃ K, K ≤ h.length ∧
      compactHistory h = some (headerStr ++
        (if K < h.length then noteStr K h.length else []) ++
        ((h.drop (h.length - K)).map rendOf).flatten) ∧
      (maxCtxTokens < estimateTokens headerStr + tokSum h → K < h.length) ∧
      (estimateTokens headerStr + tokSum h ≤ maxCtxTokens → K = h.length) := by
  have hall' : ∀ c ∈ h.reverse, (renderCtx c).isSome :=
    fun c hc => hall c (List.mem_reverse.mp hc)
  obtain ⟨k, hk_le, hkeq, hfit1, hfit2⟩ :=
    compactLoop_spec h.reverse (estimateTokens headerStr) (by decide) hall'
  rw [List.length_reverse] at hk_le
  have hlm : ((h.reverse.take k).map rendOf).length = k := by
    simp [List.length_take]
    omega
  have hrev : ((h.reverse.take k).map rendOf).reverse = (h.drop (h.length - k)).map rendOf := by
    rw [← List.map_reverse]
    rw [← List.rtake_eq_reverse_take_reverse]
    rfl
  refine ⟨k, hk_le, ?_, ?_, ?_⟩
  · unfold compactHistory
    rw [hkeq]
    dsimp only []
    rw [hlm, hrev]
  · intro hbig
    rcases Nat.lt_or_ge k h.length with hlt | hge
    · exact hlt
    · exfalso
      have hk' : k = h.reverse.length := by
        rw [List.length_reverse]
        omega
      have := hfit2 hk'
      rw [tokSum_reverse] at this
      omega
  · intro hfit
    have := hfit1 (by rwa [tokSum_reverse])
    rwa [List.length_reverse] at this

/-- Witness for `compact_structure`: 58 turns of about 52 tokens each
exceed the ceiling, so a strict suffix is kept and the note appears. -/
theorem compact_structure_witness :
    (maxCtxTokens < estimateTokens headerStr + tokSum bigHist) ∧
    ∃ K, K ≤ bigHist.length ∧
      compactHistory bigHist = some (headerStr ++
        (if K < bigHist.length then noteStr K bigHist.length else []) ++
        ((bigHist.drop (bigHist.length - K)).map rendOf).flatten) ∧
      (maxCtxTokens < estimateTokens headerStr + tokSum bigHist → K < bigHist.length) ∧
      (estimateTokens headerStr + tokSum bigHist ≤ maxCtxTokens → K = bigHist.length) :=
  ⟨by decide, compact_structure bigHist (by decide)⟩

/-- Claim C6: at the confirmation prompt, after trimming and
lowercasing, the empty string, `y` and `yes` resolve to Accept; `n` and
`no` to Decline; `s` and `skip` to Skip; `i` and `instruct` to Divert,
reading one further line as the side-command text; a line containing the
escape control character resolves to Decline; anything else re-issues
the same prompt on the next line. -/
theorem confirm_token_semantics (line : List Char) (rest : List (List Char)) :
    (escChar ∈ line → confirmRead (line :: rest) = (ConfirmResponse.no, rest)) ∧
    (escChar ∉ line →
      (lower (trimStr line) = [] ∨ lower (trimStr line) = ("y".data) ∨
        lower (trimStr line) = ("yes".data)) →
      confirmRead (line :: rest) = (ConfirmResponse.yes, rest)) ∧
    (escChar ∉ line →
      (lower (trimStr line) = ("n".data) ∨ lower (trimStr line) = ("no".data)) →
      confirmRead (line :: rest) = (ConfirmResponse.no, rest)) ∧
    (escChar ∉ line →
      (lower (trimStr line) = ("s".data) ∨ lower (trimStr line) = ("skip".data)) →
      confirmRead (line :: rest) = (ConfirmResponse.skip, rest)) ∧
    (escChar ∉ line →
      (lower (trimStr line) = ("i".data) ∨ lower (trimStr line) = ("instruct".data)) →
      ∀ c r2, rest = c :: r2 →
        confirmRead (line :: rest) = (ConfirmResponse.instruct (trimStr c), r2)) ∧
    (escChar ∉ line →
      lower (trimStr line) ∉ [([] : List Char), ("y".data), ("yes".data), ("n".data),
        ("no".data), ("s".data), ("skip".data), ("i".data), ("instruct".data)] →
      confirmRead (line :: rest) = confirmRead rest) := by
  refine ⟨?_, ?_, ?_, ?_, ?_, ?_⟩
  · intro hesc
    simp [confirmRead, hesc]
  · intro hesc hor
    rcases hor with h | h | h <;> simp [confirmRead, hesc, h]
  · intro hesc hor
    rcases hor with h | h <;> simp [confirmRead, hesc, h]
  · intro hesc hor
    rcases hor with h | h <;> simp [confirmRead, hesc, h]
  · intro hesc hor c r2 hrest
    subst hrest
    rcases hor with h | h <;> simp [confirmRead, hesc, h]
  · intro hesc hnot
    simp only [List.mem_cons, not_or] at hnot
    obtain ⟨h1, h2, h3, h4, h5, h6, h7, h8, h9, -⟩ := hnot
    simp [confirmRead, hesc, h1, h2, h3, h4, h5, h6, h7, h8, h9]

/-- Witness for `confirm_token_semantics`: `" YES "` resolves to Accept. -/
theorem confirm_token_semantics_witness :
    confirmRead ([(" YES ".data)]) = (ConfirmResponse.yes, []) :=
  (confirm_token_semantics (" YES ".data) []).2.1 (by decide) (by decide)

/-- Helper: when an input is routed to the model and processing returns
any error, the loop iteration leaves the session history unchanged. -/
theorem loopStep_model_error (e : Env) (raw : List Char) (h : List ConversationContext)
    (err : PErr)
    (h0 : trimStr raw ≠ [])
    (h1 : ¬(trimStr raw = ("q".data) ∨ trimStr raw = ("exit".data) ∨
      trimStr raw = ("quit".data)))
    (h2 : trimStr raw ≠ (".".data)) (h3 : trimStr raw ≠ ("..".data))
    (h4 : trimStr raw ≠ ("clear".data)) (h5 : trimStr raw ≠ ("finder".data))
    (h6 : isSafeDirectCommand (trimStr raw) = false)
    (herr : processPrompt e.exec e.api e.stream = Except.error err) :
    loopStep e raw h = h := by
  unfold loopStep
  rw [if_neg h0, if_neg h1, if_neg h2, if_neg h3, if_neg h4, if_neg h5,
    if_neg (by simp [h6]), herr]

/-- Claim C7: a Divert with non-empty side command runs the side command
before the original command is re-confirmed (the shell trace shows the
side command strictly first), the side command is never added to the
recorded command/output lists (the recorded commands are always a
sublist of the proposed commands), and a second Divert at the nested
prompt is rejected and acts as Skip for that command. -/
theorem divert_semantics :
    (∀ (ex : List Char → List Char × Bool) (cmd c co out : List Char)
       (rest stream s2 s3 cs os tr : List (List Char)),
      cmd.head? ≠ some '#' →
      confirmRead stream = (ConfirmResponse.instruct c, s2) →
      c ≠ [] → ex c = (co, true) →
      confirmRead s2 = (ConfirmResponse.yes, s3) →
      ex cmd = (out, true) →
      cmdLoop ex rest s3 = Except.ok ((cs, os), tr) →
      cmdLoop ex (cmd :: rest) stream =
        Except.ok ((cmd :: cs, out :: os), c :: cmd :: tr)) ∧
    (∀ (ex : List Char → List Char × Bool) (cmd c c2 co : List Char)
       (rest stream s2 s3 cs os tr : List (List Char)),
      cmd.head? ≠ some '#' →
      confirmRead stream = (ConfirmResponse.instruct c, s2) →
      c ≠ [] → ex c = (co, true) →
      confirmRead s2 = (ConfirmResponse.instruct c2, s3) →
      cmdLoop ex rest s3 = Except.ok ((cs, os), tr) →
      cmdLoop ex (cmd :: rest) stream = Except.ok ((cs, os), c :: tr)) ∧
    (∀ (ex : List Char → List Char × Bool) (cmds stream cs os tr : List (List Char)),
      cmdLoop ex cmds stream = Except.ok ((cs, os), tr) → List.Sublist cs cmds) := by
  refine ⟨?_, ?_, ?_⟩
  · intro ex cmd c co out rest stream s2 s3 cs os tr hh hconf hc hexc hconf2 hexcmd hrec
    have hside : sideRun ex c = Except.ok [c] := by
      unfold sideRun
      rw [if_neg hc, hexc]
    simp only [cmdLoop]
    rw [if_neg hh, hconf]
    dsimp only []
    rw [hside]
    dsimp only []
    rw [hconf2]
    dsimp only []
    rw [hexcmd]
    dsimp only []
    rw [hrec]
    rfl
  · intro ex cmd c c2 co rest stream s2 s3 cs os tr hh hconf hc hexc hconf2 hrec
    have hside : sideRun ex c = Except.ok [c] := by
      unfold sideRun
      rw [if_neg hc, hexc]
    simp only [cmdLoop]
    rw [if_neg hh, hconf]
    dsimp only []
    rw [hside]
    dsimp only []
    rw [hconf2]
    dsimp only []
    rw [hrec]
    rfl
  · intro ex cmds stream cs os tr hres
    exact cmdLoop_sublist ex cmds stream cs os tr hres

/-- Witness for `divert_semantics`: diverting to `pwd` before accepting
`k` produces the trace `pwd` then `k`, with only `k` recorded. -/
theorem divert_semantics_witness :
    cmdLoop (fun _ => (("out".data), true)) ([("k".data)])
      ([("i".data), ("pwd".data), ("y".data)]) =
    Except.ok ((([("k".data)]), ([("out".data)])), [("pwd".data), ("k".data)]) :=
  divert_semantics.1 (fun _ => (("out".data), true)) ("k".data) ("pwd".data)
    ("out".data) ("out".data) [] ([("i".data), ("pwd".data), ("y".data)])
    ([("y".data)]) [] [] [] []
    (by decide) (by decide) (by decide) (by decide) (by decide) (by decide) (by decide)

/-- Claim C8: Decline — at the initial prompt or at the post-Divert
prompt — stops all remaining proposed commands and returns exactly what
was already collected; in the two-command scenario answered Accept then
Decline, exactly one command/output pair is returned and the second
command is never executed. -/
theorem decline_aborts :
    (∀ (ex : List Char → List Char × Bool) (cmd : List Char)
       (rest stream s2 : List (List Char)),
      cmd.head? ≠ some '#' →
      confirmRead stream = (ConfirmResponse.no, s2) →
      cmdLoop ex (cmd :: rest) stream = Except.ok (([], []), [])) ∧
    (∀ (ex : List Char → List Char × Bool) (cmd c : List Char)
       (rest stream s2 s3 pfxT : List (List Char)),
      cmd.head? ≠ some '#' →
      confirmRead stream = (ConfirmResponse.instruct c, s2) →
      sideRun ex c = Except.ok pfxT →
      confirmRead s2 = (ConfirmResponse.no, s3) →
      cmdLoop ex (cmd :: rest) stream = Except.ok (([], []), pfxT)) ∧
    processPrompt (fun _ => (("out".data), true))
      (ApiOutcome.success [("lsof -i :5234\nkill $(lsof -t -i :5234)".data)])
      ([("y".data), ("n".data)]) =
    Except.ok ((([("lsof -i :5234".data)]), ([("out".data)])),
      [("lsof -i :5234".data)]) := by
  refine ⟨?_, ?_, by decide⟩
  · intro ex cmd rest stream s2 hh hconf
    simp only [cmdLoop]
    rw [if_neg hh, hconf]
  · intro ex cmd c rest stream s2 s3 pfxT hh hconf hside hconf2
    simp only [cmdLoop]
    rw [if_neg hh, hconf]
    dsimp only []
    rw [hside]
    dsimp only []
    rw [hconf2]

/-- Witness for `decline_aborts`: declining the first command returns
empty results, and declining after a non-empty Divert (side command
`pwd`) returns empty results with only the side command in the shell
trace. -/
theorem decline_aborts_witness :
    (cmdLoop (fun _ => (("o".data), true)) ([("a".data)]) ([("n".data)]) =
      Except.ok (([], []), [])) ∧
    (cmdLoop (fun _ => (("o".data), true)) ([("a".data)])
      ([("i".data), ("pwd".data), ("n".data)]) =
      Except.ok (([], []), [("pwd".data)])) :=
  ⟨decline_aborts.1 (fun _ => (("o".data), true)) ("a".data) [] ([("n".data)]) []
    (by decide) (by decide),
   decline_aborts.2.1 (fun _ => (("o".data), true)) ("a".data) ("pwd".data) []
    ([("i".data), ("pwd".data), ("n".data)]) ([("n".data)]) [] ([("pwd".data)])
    (by decide) (by decide) (by decide) (by decide)⟩

/-- Counterexample to claim C9: with a shell failing on `a` but fine on
`b`, accepting both proposed commands `a` then `b` makes the whole turn
return an error — the remaining command `b` is never processed, so the
failure does not stay confined to the single command's execution. -/
theorem exec_error_counterexample :
    cmdLoop failingShell ([("a".data), ("b".data)]) [] = Except.error PErr.execFailed ∧
    failingShell ("b".data) = (("fine".data), true) := by
  decide

/-- Claim C9 (amended): a non-zero exit status from an Accept or Divert
execution propagates as an error that aborts the remaining proposed
commands of the current turn (already-collected pairs are discarded),
but does not abort the session: the interactive loop surfaces the error
and continues with the history unchanged. -/
theorem exec_error_policy :
    (∀ (ex : List Char → List Char × Bool) (cmd out : List Char)
       (rest stream s2 : List (List Char)),
      cmd.head? ≠ some '#' →
      confirmRead stream = (ConfirmResponse.yes, s2) →
      ex cmd = (out, false) →
      cmdLoop ex (cmd :: rest) stream = Except.error PErr.execFailed) ∧
    (∀ (ex : List Char → List Char × Bool) (cmd c out : List Char)
       (rest stream s2 : List (List Char)),
      cmd.head? ≠ some '#' →
      confirmRead stream = (ConfirmResponse.instruct c, s2) →
      c ≠ [] → ex c = (out, false) →
      cmdLoop ex (cmd :: rest) stream = Except.error PErr.execFailed) ∧
    (∀ (e : Env) (raw : List Char) (h : List ConversationContext) (err : PErr),
      trimStr raw ≠ [] →
      ¬(trimStr raw = ("q".data) ∨ trimStr raw = ("exit".data) ∨
        trimStr raw = ("quit".data)) →
      trimStr raw ≠ (".".data) → trimStr raw ≠ ("..".data) →
      trimStr raw ≠ ("clear".data) → trimStr raw ≠ ("finder".data) →
      isSafeDirectCommand (trimStr raw) = false →
      processPrompt e.exec e.api e.stream = Except.error err →
      loopStep e raw h = h) := by
  refine ⟨?_, ?_, ?_⟩
  · intro ex cmd out rest stream s2 hh hconf hex
    simp only [cmdLoop]
    rw [if_neg hh, hconf]
    dsimp only []
    rw [hex]
  · intro ex cmd c out rest stream s2 hh hconf hc hex
    have hside : sideRun ex c = Except.error PErr.execFailed := by
      unfold sideRun
      rw [if_neg hc, hex]
    simp only [cmdLoop]
    rw [if_neg hh, hconf]
    dsimp only []
    rw [hside]
  · intro e raw h err h0 h1 h2 h3 h4 h5 h6 herr
    exact loopStep_model_error e raw h err h0 h1 h2 h3 h4 h5 h6 herr

/-- Witness for `exec_error_policy`: a failing accepted command errors
the turn. -/
theorem exec_error_policy_witness :
    cmdLoop (fun _ => (([] : List Char), false)) ([("x".data)]) [] =
    Except.error PErr.execFailed :=
  exec_error_policy.1 (fun _ => (([] : List Char), false)) ("x".data) [] [] [] []
    (by decide) (by decide) (by decide)

/-- Claim C10: whenever processing a model-routed input returns an error
of any kind (network failure, API error, empty response, or a non-zero
exit from an accepted or diverted command), the interactive loop appends
no turn at all — the session history is unchanged, even when some
commands had already executed. -/
theorem model_error_appends_no_turn (e : Env) (raw : List Char)
    (h : List ConversationContext) (err : PErr)
    (h0 : trimStr raw ≠ [])
    (h1 : ¬(trimStr raw = ("q".data) ∨ trimStr raw = ("exit".data) ∨
      trimStr raw = ("quit".data)))
    (h2 : trimStr raw ≠ (".".data)) (h3 : trimStr raw ≠ ("..".data))
    (h4 : trimStr raw ≠ ("clear".data)) (h5 : trimStr raw ≠ ("finder".data))
    (h6 : isSafeDirectCommand (trimStr raw) = false)
    (herr : processPrompt e.exec e.api e.stream = Except.error err) :
    loopStep e raw h = h :=
  loopStep_model_error e raw h err h0 h1 h2 h3 h4 h5 h6 herr

/-- Witness for `model_error_appends_no_turn`: a network error on a
model-routed input leaves the one-turn history unchanged. -/
theorem model_error_appends_no_turn_witness :
    loopStep envW ("please do things".data) histW = histW :=
  model_error_appends_no_turn envW ("please do things".data) histW PErr.network
    (by decide) (by decide) (by decide) (by decide) (by decide) (by decide)
    (by decide) (by decide)

end AskCli
